import Mathlib

/-!
Shallow embedding of the dependency reconciliation engine of `gomodcheck`
(package `cmd`, file `gomodcheck.go`; package `dependencies`, files
`project_dependency.go` and `location_tree.go`).

Go maps keyed by strings are modelled as association lists in insertion
order (`assocFind` / `assocUpdate`); pointer mutation of a shared
`*dependency` is modelled by updating the single backing store
(`allDependencies`) that the other collections reference by path.
-/

namespace GoModCheck

/-- Model of `golang.org/x/mod/module.Version`: a module path together with
a version string (empty when no version is pinned). -/
structure ModuleVersion where
  path : String
  version : String
deriving DecidableEq, Repr

/-- Model of `module.Version.String()`: `path@version` when the version is
non-empty, otherwise just the path. -/
def ModuleVersion.render (m : ModuleVersion) : String :=
  if m.version = "" then m.path else m.path ++ "@" ++ m.version

/-- Model of `dependencies.FileLocation` (`location_tree.go`): a row/column
source position.  A zero row means "unset" (Go zero value). -/
structure FileLocation where
  row : Nat
  col : Nat
deriving DecidableEq, Repr

/-- Model of `dependencies.dependencyLocationTree` (`location_tree.go`): one
owned ancestry node; `ancestor` is the (possibly absent) back-reference into
a previously built node. -/
inductive LocationTree : Type where
  | node (parentModVersion : String) (original : FileLocation)
      (replace : FileLocation) (ancestor : Option LocationTree)

/-- Accessor for `ParentPackage()`. -/
def LocationTree.parentPackage : LocationTree → String
  | .node p _ _ _ => p

/-- Accessor for `OriginalLocation()`. -/
def LocationTree.originalLocation : LocationTree → FileLocation
  | .node _ o _ _ => o

/-- The raw `replace` field of the node. -/
def LocationTree.replaceLocation : LocationTree → FileLocation
  | .node _ _ r _ => r

/-- Accessor for `Ancestor()`. -/
def LocationTree.ancestor : LocationTree → Option LocationTree
  | .node _ _ _ a => a

/-- Model of `EffectiveLocation()`: the replace position when its row is
set (non-zero), otherwise the original position. -/
def LocationTree.effectiveLocation (t : LocationTree) : FileLocation :=
  if t.replaceLocation.row ≠ 0 then t.replaceLocation else t.originalLocation

/-- The in-place assignments `d.location.replace.Row = ...` /
`...Col = ...` performed by `maybeUpdate` on the dependency's own node. -/
def LocationTree.setReplace : LocationTree → FileLocation → LocationTree
  | .node p o _ a, r => .node p o r a

/-- Model of `dependencies.dependency` (`project_dependency.go`): declared
(`originalVersion`) vs. effective version, the owned location node, and the
`globalReplace` flag (true iff the current effective version came from an
untargeted replace directive). -/
structure Dependency where
  originalVersion : ModuleVersion
  effectiveVersion : ModuleVersion
  location : LocationTree
  globalReplace : Bool

/-- Model of one parsed `replace` statement (`modfile.Replace`): `old` may
carry an empty version (untargeted directive), `new` is the replacement
ref, `start` is `rep.Syntax.Start` (line/rune). -/
structure Replace where
  old : ModuleVersion
  new : ModuleVersion
  start : FileLocation
deriving DecidableEq, Repr

/-- Model of one parsed `require` statement (`modfile.Require`). -/
structure Require where
  mod : ModuleVersion
  indirect : Bool
  start : FileLocation
deriving DecidableEq, Repr

/-- The parsed manifest consumed by the core: the declaring module identity
plus the ordered require and replace lists (`modfile.File`; the raw text
parser is the external collaborator). -/
structure ModFile where
  module : ModuleVersion
  require : List Require
  replace : List Replace

/-- Outcome of `(*dependency).maybeUpdate`: the receiver after the call
(`dep`; unchanged on every no-op and every error path), the returned bool,
and the returned error. -/
structure UpdateResult where
  dep : Dependency
  updated : Bool
  err : Option String

/-- Model of `(*dependency).maybeUpdate` (`project_dependency.go`):
applies one replace directive to this dependency per the Go branch
structure. -/
def Dependency.maybeUpdate (d : Dependency) (rep : Replace) : UpdateResult :=
  if rep.old.version ≠ "" then
    -- targeted replace directive
    if d.originalVersion.version ≠ rep.old.version then
      ⟨d, false, none⟩
    else if d.originalVersion ≠ d.effectiveVersion ∧ d.globalReplace = false then
      ⟨d, false,
        some ("multiple version-specific replace directives for module "
          ++ d.originalVersion.path)⟩
    else
      ⟨{ d with
          effectiveVersion := rep.new,
          location := d.location.setReplace rep.start,
          globalReplace := false }, true, none⟩
  else
    -- untargeted replace directive
    if d.effectiveVersion.version ≠ d.originalVersion.version then
      if d.globalReplace then
        ⟨d, false,
          some ("multiple non-version-specific replace directives for module "
            ++ d.originalVersion.path)⟩
      else
        ⟨d, false, none⟩
    else
      ⟨{ d with
          effectiveVersion := rep.new,
          location := d.location.setReplace rep.start,
          globalReplace := true }, true, none⟩

/-- Association-list lookup, modelling a read of a Go map keyed by
string. -/
def assocFind {α : Type} : List (String × α) → String → Option α
  | [], _ => none
  | (k, v) :: rest, key => if k = key then some v else assocFind rest key

/-- Association-list write, modelling a Go map assignment (replace the
entry when the key is present, append it otherwise). -/
def assocUpdate {α : Type} : List (String × α) → String → α → List (String × α)
  | [], key, v => [(key, v)]
  | (k, w) :: rest, key, v =>
    if k = key then (key, v) :: rest else (k, w) :: assocUpdate rest key v

/-- Model of `dependencies.projectDependencies`: the per-manifest
DependencySet.  `allDependencies` is the backing store (path → dependency);
`directPaths` and `replacementPaths` model the `directDependencies` and
`replacements` maps, whose values are shared pointers into the store. -/
structure ProjectDependencies where
  replacementPaths : List String
  directPaths : List String
  allDependencies : List (String × Dependency)

/-- Model of `projectDependencies.GetDep`: the stored dependency for the
path, or nil (`none`) when absent — the Go if-block avoids returning a
typed-nil interface, so absence is always a true nil. -/
def ProjectDependencies.GetDep (p : ProjectDependencies) (packagePath : String) :
    Option Dependency :=
  match assocFind p.allDependencies packagePath with
  | some dep => some dep
  | none => none

/-- Model of `projectDependencies.Replacements`: the values of the
`replacements` map (shared pointers, read back from the store). -/
def ProjectDependencies.Replacements (p : ProjectDependencies) : List Dependency :=
  p.replacementPaths.filterMap (assocFind p.allDependencies)

/-- Model of `(*projectDependencies).updateEffectiveVersion`: look the
replaced path up in `allDependencies`; silently ignore an unknown path;
otherwise run `maybeUpdate` (the in-place mutation is the store update) and
record the path in `replacements` when the directive applied. -/
def ProjectDependencies.updateEffectiveVersion (p : ProjectDependencies)
    (rep : Replace) : Except String ProjectDependencies :=
  match assocFind p.allDependencies rep.old.path with
  | none => .ok p
  | some dep =>
    match (dep.maybeUpdate rep).err with
    | some e => .error e
    | none =>
      if (dep.maybeUpdate rep).updated then
        .ok { replacementPaths :=
                if rep.old.path ∈ p.replacementPaths then p.replacementPaths
                else p.replacementPaths ++ [rep.old.path],
              directPaths := p.directPaths,
              allDependencies :=
                assocUpdate p.allDependencies rep.old.path (dep.maybeUpdate rep).dep }
      else
        .ok { p with
          allDependencies :=
            assocUpdate p.allDependencies rep.old.path (dep.maybeUpdate rep).dep }

/-- The require loop of `NewProjectDependenciesFromModfile`: one dependency
per required module (duplicate paths are an error), with
`originalVersion = effectiveVersion`, a fresh location node pointing at the
require statement, and the caller-supplied parent ancestry as `ancestor`. -/
def buildRequires (modIdent : String) (parentLoc : Option LocationTree) :
    List Require → ProjectDependencies → Except String ProjectDependencies
  | [], p => .ok p
  | req :: rest, p =>
    match assocFind p.allDependencies req.mod.path with
    | some _ => .error ("duplicate dependency " ++ req.mod.path)
    | none =>
      buildRequires modIdent parentLoc rest
        { p with
          allDependencies := p.allDependencies ++
            [(req.mod.path,
              { originalVersion := req.mod,
                effectiveVersion := req.mod,
                location := LocationTree.node modIdent req.start ⟨0, 0⟩ parentLoc,
                globalReplace := false })],
          directPaths :=
            if req.indirect then p.directPaths else p.directPaths ++ [req.mod.path] }

/-- The replace loop of `NewProjectDependenciesFromModfile`. -/
def applyReplaces : ProjectDependencies → List Replace → Except String ProjectDependencies
  | p, [] => .ok p
  | p, rep :: rest =>
    match p.updateEffectiveVersion rep with
    | .error e => .error e
    | .ok p' => applyReplaces p' rest

/-- Model of `dependencies.NewProjectDependenciesFromModfile`, taking the
already-parsed manifest (reading and parsing the file is the external
collaborator's job): build one dependency per require statement, then apply
the replace directives in manifest order. -/
def NewProjectDependenciesFromModfile (parentModDecl : Option Dependency)
    (modFile : ModFile) : Except String ProjectDependencies :=
  match buildRequires modFile.module.render
      (parentModDecl.map (fun d => d.location)) modFile.require
      ⟨[], [], []⟩ with
  | .error e => .error e
  | .ok p => applyReplaces p modFile.replace

/-- Model of `cmd.depError` (`gomodcheck.go`): one mismatch report. -/
structure DepError where
  wantVersion : String
  gotVersion : String
  gotLoc : LocationTree
  wantLoc : LocationTree

/-- Model of the fields of `cmd.modCheckCommand` that the comparison step
reads: the `--match-replaces` package list, the parsed `--match-dep` map
(package path → target module paths), the project's dependency sets, and
the per-dependency-package map of loaded sets. -/
structure ModCheckCommand where
  checkReplacePackages : List String
  parsedMatchDeps : List (String × List String)
  projectDeps : List ProjectDependencies
  depDeps : List (String × ProjectDependencies)

/-- Step 1a of `findDepErrors`: for each `--match-dep` pair, fetch the
target dependency from that package's set (skipping unknown packages and
targets) into the `depsToCheck` map. -/
def collectMatchDeps (c : ModCheckCommand) : List (String × Dependency) :=
  c.parsedMatchDeps.foldl
    (fun acc pair =>
      match assocFind c.depDeps pair.1 with
      | none => acc
      | some depSet =>
        pair.2.foldl
          (fun acc2 depPath =>
            match depSet.GetDep depPath with
            | some dep => assocUpdate acc2 depPath dep
            | none => acc2)
          acc)
    []

/-- Step 1b of `findDepErrors`: for each `--match-replaces` package, add
every replaced dependency keyed by its original path (silently overwriting
an existing entry). -/
def collectReplaceDeps (c : ModCheckCommand) (acc0 : List (String × Dependency)) :
    List (String × Dependency) :=
  c.checkReplacePackages.foldl
    (fun acc depPackage =>
      match assocFind c.depDeps depPackage with
      | none => acc
      | some depSet =>
        depSet.Replacements.foldl
          (fun acc2 dep => assocUpdate acc2 dep.originalVersion.path dep)
          acc)
    acc0

/-- The candidate map `depsToCheck` built by steps 1a/1b of
`findDepErrors`. -/
def depsToCheck (c : ModCheckCommand) : List (String × Dependency) :=
  collectReplaceDeps c (collectMatchDeps c)

/-- Model of `(modCheckCommand).findDepErrors`, comparison step: for every
candidate and every project dependency set, look the candidate's original
path up and compare the `String()` renderings of the two effective
versions, emitting a `depError` on inequality. -/
def findDepErrors (c : ModCheckCommand) : List DepError :=
  (depsToCheck c).flatMap (fun kv =>
    c.projectDeps.flatMap (fun projectDepSet =>
      match projectDepSet.GetDep kv.2.originalVersion.path with
      | none => []
      | some projectDep =>
        if kv.2.effectiveVersion.render ≠ projectDep.effectiveVersion.render then
          [{ wantVersion := kv.2.effectiveVersion.render,
             gotVersion := projectDep.effectiveVersion.render,
             gotLoc := projectDep.location,
             wantLoc := kv.2.location }]
        else []))

/-- Model of `(*modCheckCommand).run` after `readDepMappings`: the first
component is the list of reports printed by the `printFormattedErr` loop,
the second the returned error (failure iff at least one mismatch).  The
whole of `run` also covers the load phase, whose outcome is the
argument. -/
def runWith (loadResult : Except String ModCheckCommand) :
    List DepError × Except String Unit :=
  match loadResult with
  | .error e => ([], .error ("reading dependency mappings: " ++ e))
  | .ok c =>
    (findDepErrors c,
      if (findDepErrors c).length > 0 then .error "found dependency mismatches"
      else .ok ())

/-! ### `--match-dep` flag parsing (`parseAndVerifyMatchDeps`) -/

/-- Model of Go `strings.Split(s, ":")` on the character list. -/
def splitOnColonAux : List Char → List Char → List (List Char)
  | [], acc => [acc.reverse]
  | c :: rest, acc =>
    if c = ':' then acc.reverse :: splitOnColonAux rest []
    else splitOnColonAux rest (c :: acc)

/-- Model of Go `strings.Split(s, ":")`. -/
def splitOnColon (s : String) : List String :=
  (splitOnColonAux s.data []).map (fun l => ⟨l⟩)

/-- The per-input checks of `parseAndVerifyMatchDeps`: exactly one `:`
separator and no empty component, giving the `(package, dep)` pair. -/
def parseMatchDep (s : String) : Except String (String × String) :=
  match splitOnColon s with
  | [a, b] =>
    if a = "" ∨ b = "" then
      .error ("empty package path in dep match input: " ++ s)
    else
      .ok (a, b)
  | _ => .error ("unexpected dep match input: " ++ s)

/-- The input loop of `parseAndVerifyMatchDeps`, returning the raw pairs in
input order (the first failing input aborts). -/
def parseAllMatchDeps : List String → Except String (List (String × String))
  | [] => .ok []
  | s :: rest =>
    match parseMatchDep s with
    | .error e => .error e
    | .ok p =>
      match parseAllMatchDeps rest with
      | .error e => .error e
      | .ok ps => .ok (p :: ps)

/-- Adding one `(package, dep)` pair to `parsedMatchDeps`
(`c.parsedMatchDeps[parts[0]][parts[1]] = struct{}{}`): a map of sets,
modelled as an association list of duplicate-free lists. -/
def addMatchDep (m : List (String × List String)) (pkg dep : String) :
    List (String × List String) :=
  match assocFind m pkg with
  | none => m ++ [(pkg, [dep])]
  | some deps => if dep ∈ deps then m else assocUpdate m pkg (deps ++ [dep])

/-- Folding all parsed pairs into `parsedMatchDeps`. -/
def buildParsedMatchDeps : List (String × String) → List (String × List String) →
    List (String × List String)
  | [], m => m
  | (pkg, dep) :: rest, m => buildParsedMatchDeps rest (addMatchDep m pkg dep)

/-- The `(packageName, dep)` pairs of `parsedMatchDeps` in iteration
order (Go iterates the map of sets; the double loop of the validation
visits exactly these pairs). -/
def matchDepPairs (m : List (String × List String)) : List (String × String) :=
  m.flatMap (fun e => e.2.map (fun d => (e.1, d)))

/-- The validation loop of `parseAndVerifyMatchDeps` over `validateTmp`
(dep → first package seen): an error as soon as a dep is sourced from a
second package. -/
def validateMatchDeps : List (String × String) → List (String × String) →
    Option String
  | [], _ => none
  | (pkg, dep) :: rest, tmp =>
    match assocFind tmp dep with
    | some otherPkg =>
      some ("dep " ++ dep ++ " being sourced from multiple packages: "
        ++ otherPkg ++ " and " ++ pkg)
    | none => validateMatchDeps rest ((dep, pkg) :: tmp)

/-- Model of `(*modCheckCommand).parseAndVerifyMatchDeps`: parse every
`--match-dep` input into the package→deps map, then verify that no dep is
sourced from two packages. -/
def parseAndVerifyMatchDeps (rawMatchDeps : List String) :
    Except String (List (String × List String)) :=
  match parseAllMatchDeps rawMatchDeps with
  | .error e => .error e
  | .ok ps =>
    match validateMatchDeps (matchDepPairs (buildParsedMatchDeps ps [])) [] with
    | some e => .error e
    | none => .ok (buildParsedMatchDeps ps [])

/-! ### Manifest-loading cache (`getOrLoadPackageDeps`) -/

/-- The fields of `packages.Package.Module` that `getOrLoadPackageDeps`
reads: the manifest path and, when a replace redirects the module, the
replacement's manifest path. -/
structure PkgModule where
  goMod : String
  replaceGoMod : Option String

/-- The cache field `allLoadedDeps` of `modCheckCommand` (manifest path →
already-built dependency set). -/
structure LoadState where
  allLoadedDeps : List (String × ProjectDependencies)

/-- The body of `getOrLoadPackageDeps` once `modFilePath` is computed. -/
def getOrLoadPackageDepsAt (readMod : String → Except String ModFile)
    (c : LoadState) (modFilePath : String) (dep : Option Dependency) :
    Except String (LoadState × Option ProjectDependencies × Bool) :=
  if modFilePath = "" then .ok (c, none, false)
  else
    match assocFind c.allLoadedDeps modFilePath with
    | some deps => .ok (c, some deps, false)
    | none =>
      match readMod modFilePath with
      | .error e =>
        .error ("loading dependency info for: " ++ modFilePath ++ ": " ++ e)
      | .ok mf =>
        match NewProjectDependenciesFromModfile dep mf with
        | .error e =>
          .error ("loading dependency info for: " ++ modFilePath ++ ": " ++ e)
        | .ok deps =>
          .ok ({ allLoadedDeps := assocUpdate c.allLoadedDeps modFilePath deps },
            some deps, true)

/-- Model of `(*modCheckCommand).getOrLoadPackageDeps`.  `readMod` is the
external collaborator reading and parsing a manifest file.  Returns the
cache afterwards, the dependency set (none when the package carries no
manifest), and `wasFreshLoad`. -/
def getOrLoadPackageDeps (readMod : String → Except String ModFile)
    (c : LoadState) (pkgModule : Option PkgModule) (dep : Option Dependency) :
    Except String (LoadState × Option ProjectDependencies × Bool) :=
  match pkgModule with
  | none => .ok (c, none, false)
  | some m =>
    match m.replaceGoMod with
    | some replaceGoMod =>
      getOrLoadPackageDepsAt readMod c replaceGoMod dep
    | none =>
      getOrLoadPackageDepsAt readMod c m.goMod dep

/-! ### Ancestry chain traversal (`ancestryToString`) -/

/-- One heap node of an ancestry chain for the traversal model: as
`dependencyLocationTree`, but with the `ancestor` pointer made explicit as
an index into a node store, so that the cyclic linkages the spec worries
about are expressible. -/
structure AncestryNode where
  parentModVersion : String
  original : FileLocation
  replace : FileLocation
  ancestor : Option Nat
deriving DecidableEq, Repr

/-- `EffectiveLocation()` on a store node. -/
def nodeEffectiveLocation (n : AncestryNode) : FileLocation :=
  if n.replace.row ≠ 0 then n.replace else n.original

/-- The text one iteration of the `ancestryToString` loop appends for the
node. -/
def ancestryLine (n : AncestryNode) : String :=
  "\t\toriginally included in modfile for module " ++ n.parentModVersion
    ++ " line " ++ toString n.original.row ++ ", col " ++ toString n.original.col
    ++ (if nodeEffectiveLocation n ≠ n.original then
          "\n\t\t\treplaced at line " ++ toString (nodeEffectiveLocation n).row
            ++ ", col " ++ toString (nodeEffectiveLocation n).col
        else "")
    ++ "\n"

/-- Fuel-indexed unrolling of the `for loc != nil` loop of
`ancestryToString`: `none` when the loop is still running after `fuel`
iterations (the Go loop has no cap of its own).  A dangling index behaves
like nil (unreachable for pointers). -/
def ancestryToStringAux (store : List AncestryNode) :
    Nat → Option Nat → String → Option String
  | _, none, res => some res
  | 0, some _, _ => none
  | fuel + 1, some i, res =>
    match store[i]? with
    | none => some res
    | some n => ancestryToStringAux store fuel n.ancestor (res ++ ancestryLine n)

/-- The `ancestryToString` loop terminates on this start node: some fuel
bound suffices for the loop to exit and produce its string. -/
def AncestryTerminates (store : List AncestryNode) (loc : Option Nat) : Prop :=
  ∃ fuel res, ancestryToStringAux store fuel loc "" = some res

/-- Ancestor links only ever point to previously constructed nodes (the
discipline `NewProjectDependenciesFromModfile` and the cache follow: a
node's `ancestor` is a node of an earlier-built or earlier entry). -/
def wellFormedFrom : Nat → List AncestryNode → Bool
  | _, [] => true
  | i, n :: rest =>
    (match n.ancestor with
     | none => true
     | some j => decide (j < i)) && wellFormedFrom (i + 1) rest

/-- Every node of the store has its ancestor strictly before it. -/
def WellFormedAncestry (store : List AncestryNode) : Prop :=
  wellFormedFrom 0 store = true

/-! ### Concrete instances used by the example theorems below -/

/-- A dependency as freshly built from `require M v1.0`. -/
def freshDepM : Dependency :=
  { originalVersion := ⟨"M", "v1.0"⟩, effectiveVersion := ⟨"M", "v1.0"⟩,
    location := .node "example.com/r@v0.1" ⟨2, 1⟩ ⟨0, 0⟩ none,
    globalReplace := false }

/-- A targeted directive `replace M v1.0 => N v1.0` (same version, new
path). -/
def repTargetedN : Replace :=
  { old := ⟨"M", "v1.0"⟩, new := ⟨"N", "v1.0"⟩, start := ⟨10, 1⟩ }

/-- An untargeted directive `replace M => P v3.0`. -/
def repUntargetedP : Replace :=
  { old := ⟨"M", ""⟩, new := ⟨"P", "v3.0"⟩, start := ⟨11, 1⟩ }

/-- An untargeted directive `replace M => N v1.0` (new path, same version
string). -/
def repUntargetedN : Replace :=
  { old := ⟨"M", ""⟩, new := ⟨"N", "v1.0"⟩, start := ⟨10, 1⟩ }

/-- An untargeted directive `replace M => P v2.0`. -/
def repUntargetedP2 : Replace :=
  { old := ⟨"M", ""⟩, new := ⟨"P", "v2.0"⟩, start := ⟨11, 1⟩ }

/-- A dependency after a targeted override changed its version string:
`require M v1.0` followed by `replace M v1.0 => N v2.0`. -/
def targetedDepM : Dependency :=
  { originalVersion := ⟨"M", "v1.0"⟩, effectiveVersion := ⟨"N", "v2.0"⟩,
    location := .node "example.com/r@v0.1" ⟨2, 1⟩ ⟨10, 1⟩ none,
    globalReplace := false }

/-- Unwrap a built dependency set, defaulting to the empty one. -/
def orEmptySet : Except String ProjectDependencies → ProjectDependencies
  | .ok p => p
  | .error _ => ⟨[], [], []⟩

/-- Unwrap a found dependency, defaulting to `freshDepM`. -/
def orFreshDep : Option Dependency → Dependency
  | some d => d
  | none => freshDepM

/-- The spec's end-to-end scenario, project side: a manifest requiring
`M v1.0`. -/
def projMf : ModFile :=
  ⟨⟨"example.com/proj", "v0.0.1"⟩, [⟨⟨"M", "v1.0"⟩, false, ⟨3, 1⟩⟩], []⟩

/-- The spec's end-to-end scenario, dependency side: `example.com/d`'s
manifest requiring `M v2.0`. -/
def depMf : ModFile :=
  ⟨⟨"example.com/d", "v1.2.3"⟩, [⟨⟨"M", "v2.0"⟩, false, ⟨3, 1⟩⟩], []⟩

/-- The project's dependency set of the end-to-end scenario. -/
def projSet : ProjectDependencies := orEmptySet (NewProjectDependenciesFromModfile none projMf)

/-- The dependency package's dependency set of the end-to-end scenario. -/
def depSet : ProjectDependencies := orEmptySet (NewProjectDependenciesFromModfile none depMf)

/-- The end-to-end command state: configuration `example.com/d:M`, both
sets loaded. -/
def e2eCmd : ModCheckCommand :=
  ⟨[], [("example.com/d", ["M"])], [projSet], [("example.com/d", depSet)]⟩

/-- A manifest with an identity replace: `require M v1.0` plus
`replace M v1.0 => M v1.0`. -/
def identityReplaceMf : ModFile :=
  ⟨⟨"example.com/r", "v0.1"⟩, [⟨⟨"M", "v1.0"⟩, false, ⟨3, 1⟩⟩],
    [⟨⟨"M", "v1.0"⟩, ⟨"M", "v1.0"⟩, ⟨5, 1⟩⟩]⟩

/-- The set built from `identityReplaceMf`. -/
def identityReplaceSet : ProjectDependencies :=
  orEmptySet (NewProjectDependenciesFromModfile none identityReplaceMf)

/-- A manifest whose replace changes `M`'s version: `require M v1.0` plus
`replace M v1.0 => M v2.0`. -/
def versionReplaceMf : ModFile :=
  ⟨⟨"example.com/r", "v0.1"⟩, [⟨⟨"M", "v1.0"⟩, false, ⟨3, 1⟩⟩],
    [⟨⟨"M", "v1.0"⟩, ⟨"M", "v2.0"⟩, ⟨5, 1⟩⟩]⟩

/-- The set built from `versionReplaceMf`. -/
def versionReplaceSet : ProjectDependencies :=
  orEmptySet (NewProjectDependenciesFromModfile none versionReplaceMf)

/-- The dependency `versionReplaceSet` stores for `M`. -/
def versionReplaceDepM : Dependency :=
  orFreshDep (assocFind versionReplaceSet.allDependencies "M")

/-- A manifest with a duplicate require entry for `M` and no replace
directives. -/
def dupRequireMf : ModFile :=
  ⟨⟨"example.com/r", "v0.1"⟩,
    [⟨⟨"M", "v1.0"⟩, false, ⟨3, 1⟩⟩, ⟨⟨"M", "v1.0"⟩, false, ⟨4, 1⟩⟩], []⟩

/-- A collaborator that parses every path to `projMf`. -/
def readModConst : String → Except String ModFile := fun _ => .ok projMf

/-- A package whose manifest path is `root/go.mod`, not redirected. -/
def pmRoot : Option PkgModule := some ⟨"root/go.mod", none⟩

/-- The cache after freshly loading `root/go.mod` via `readModConst`. -/
def cacheAfterRoot : LoadState :=
  ⟨[("root/go.mod", orEmptySet (NewProjectDependenciesFromModfile none projMf))]⟩

/-- A one-node ancestry store whose node is its own ancestor — the cyclic
linkage the spec's depth-cap requirement is about. -/
def cyclicStore : List AncestryNode :=
  [⟨"example.com/r@v0.1", ⟨1, 1⟩, ⟨0, 0⟩, some 0⟩]

/-- A well-formed two-node ancestry store: node 1's ancestor is node 0. -/
def chainStore : List AncestryNode :=
  [⟨"example.com/root@v1", ⟨1, 1⟩, ⟨0, 0⟩, none⟩,
   ⟨"example.com/d@v2", ⟨3, 1⟩, ⟨5, 1⟩, some 0⟩]

/-! ### Proof-support predicates -/

/-- A dependency exactly as the require loop builds it: untouched by any
replace directive. -/
def FreshDep (dep : Dependency) : Prop :=
  dep.effectiveVersion = dep.originalVersion ∧ dep.globalReplace = false ∧
    dep.location.replaceLocation = ⟨0, 0⟩

/-- Completeness half of the `replacements` invariant: every stored
dependency whose effective version differs from its original is recorded in
`replacementPaths`. -/
def DiffImpliesRecorded (p : ProjectDependencies) : Prop :=
  ∀ path dep, assocFind p.allDependencies path = some dep →
    dep.effectiveVersion ≠ dep.originalVersion → path ∈ p.replacementPaths

/-! ## Association-list lemmas -/

theorem assocFind_assocUpdate_self {α : Type} (xs : List (String × α))
    (k : String) (v : α) : assocFind (assocUpdate xs k v) k = some v := by
  induction xs with
  | nil => simp [assocUpdate, assocFind]
  | cons hd tl ih =>
    obtain ⟨k', w⟩ := hd
    by_cases hk : k' = k
    · simp [assocUpdate, hk, assocFind]
    · simp [assocUpdate, hk, assocFind, ih]

theorem assocFind_assocUpdate_ne {α : Type} (xs : List (String × α))
    (k : String) (v : α) (k' : String) (h : k ≠ k') :
    assocFind (assocUpdate xs k v) k' = assocFind xs k' := by
  induction xs with
  | nil => simp [assocUpdate, assocFind, h]
  | cons hd tl ih =>
    obtain ⟨k₀, w⟩ := hd
    by_cases hk : k₀ = k
    · subst hk
      simp [assocUpdate, assocFind, h]
    · simp [assocUpdate, hk, assocFind, ih]

theorem assocFind_append {α : Type} (xs ys : List (String × α)) (key : String) :
    assocFind (xs ++ ys) key =
      match assocFind xs key with
      | some v => some v
      | none => assocFind ys key := by
  induction xs with
  | nil => simp [assocFind]
  | cons hd tl ih =>
    obtain ⟨k, v⟩ := hd
    by_cases hk : k = key
    · simp [assocFind, hk]
    · simp [assocFind, hk, ih]

theorem mem_of_assocFind {α : Type} :
    ∀ (xs : List (String × α)) (k : String) (v : α),
      assocFind xs k = some v → (k, v) ∈ xs := by
  intro xs
  induction xs with
  | nil => intro k v h; simp [assocFind] at h
  | cons hd tl ih =>
    intro k v h
    obtain ⟨k₀, w⟩ := hd
    by_cases hk : k₀ = k
    · subst hk
      simp [assocFind] at h
      subst h
      exact List.mem_cons_self _ _
    · rw [assocFind, if_neg hk] at h
      exact List.mem_cons_of_mem _ (ih k v h)

/-! ## `maybeUpdate` lemmas -/

theorem maybeUpdate_not_updated (d : Dependency) (rep : Replace)
    (h : (d.maybeUpdate rep).updated = false) : (d.maybeUpdate rep).dep = d := by
  unfold Dependency.maybeUpdate at h ⊢
  split_ifs at h ⊢ <;> simp_all

theorem maybeUpdate_originalVersion (d : Dependency) (rep : Replace) :
    (d.maybeUpdate rep).dep.originalVersion = d.originalVersion := by
  unfold Dependency.maybeUpdate
  split_ifs <;> rfl

/-! ## C2 — untargeted override after a targeted one -/

/-- C2 (amended): an untargeted replace directive is a silent no-op on a
dependency whose version STRING was already changed by a targeted override
(`effectiveVersion.version ≠ originalVersion.version` with
`globalOverrideApplied` false): the call returns no error, reports no
update, and leaves the dependency — effective version, override position
and flag — unchanged.  (As frozen, with "effectiveVersion differs from
originalVersion", the claim fails: the code compares only the version
strings, see the counterexample.) -/
theorem untargeted_after_targeted_noop (d : Dependency) (rep : Replace)
    (h1 : rep.old.version = "")
    (h2 : d.effectiveVersion.version ≠ d.originalVersion.version)
    (h3 : d.globalReplace = false) :
    d.maybeUpdate rep = ⟨d, false, none⟩ := by
  unfold Dependency.maybeUpdate
  simp [h1, h2, h3]

theorem untargeted_after_targeted_noop_witness :
    targetedDepM.maybeUpdate repUntargetedP = ⟨targetedDepM, false, none⟩ :=
  untargeted_after_targeted_noop targetedDepM repUntargetedP rfl (by decide) rfl

/-- C2 counterexample: `require M v1.0`, targeted `replace M v1.0 =>
N v1.0` (so `effectiveVersion ≠ originalVersion` and the flag is false,
exactly the claim's precondition), then untargeted `replace M => P v3.0`.
The untargeted directive is NOT a no-op: it errors nowhere, overwrites the
targeted result with `P v3.0` and sets `globalOverrideApplied`. -/
theorem untargeted_after_targeted_cex :
    (freshDepM.maybeUpdate repTargetedN).err = none ∧
    (freshDepM.maybeUpdate repTargetedN).dep.effectiveVersion ≠
      (freshDepM.maybeUpdate repTargetedN).dep.originalVersion ∧
    (freshDepM.maybeUpdate repTargetedN).dep.globalReplace = false ∧
    ((freshDepM.maybeUpdate repTargetedN).dep.maybeUpdate repUntargetedP).err
      = none ∧
    ((freshDepM.maybeUpdate repTargetedN).dep.maybeUpdate
        repUntargetedP).dep.effectiveVersion = ⟨"P", "v3.0"⟩ ∧
    ((freshDepM.maybeUpdate repTargetedN).dep.maybeUpdate
        repUntargetedP).dep.globalReplace = true := by
  decide

/-! ## C4 — conflicting override pairs -/

/-- C4 (amended): a second targeted override (same matching `oldVersion`)
is the conflict error "multiple version-specific replace directives" when
the first one actually changed the stored ref (`new ≠ original`), and a
second untargeted override is the conflict error "multiple
non-version-specific replace directives" when the first one changed the
version STRING (`new.version ≠ original.version`); in both cases the
failing application leaves the dependency unchanged.  (As frozen the claim
fails: a first untargeted override to a new path with the same version
string lets a second untargeted override through, see the
counterexample.) -/
theorem maybeUpdate_conflict_errors :
    (∀ (d : Dependency) (rep1 rep2 : Replace),
      d.effectiveVersion = d.originalVersion →
      rep1.old.version ≠ "" → rep1.old.version = d.originalVersion.version →
      rep1.new ≠ d.originalVersion →
      rep2.old.version ≠ "" → rep2.old.version = d.originalVersion.version →
      (d.maybeUpdate rep1).dep.maybeUpdate rep2 =
        ⟨(d.maybeUpdate rep1).dep, false,
         some ("multiple version-specific replace directives for module "
           ++ d.originalVersion.path)⟩) ∧
    (∀ (d : Dependency) (rep1 rep2 : Replace),
      d.effectiveVersion.version = d.originalVersion.version →
      rep1.old.version = "" → rep1.new.version ≠ d.originalVersion.version →
      rep2.old.version = "" →
      (d.maybeUpdate rep1).dep.maybeUpdate rep2 =
        ⟨(d.maybeUpdate rep1).dep, false,
         some ("multiple non-version-specific replace directives for module "
           ++ d.originalVersion.path)⟩) := by
  constructor
  · intro d rep1 rep2 h0 h1 h1v hnew h2 h2v
    have e1 : d.maybeUpdate rep1 =
        ⟨{ d with
            effectiveVersion := rep1.new,
            location := d.location.setReplace rep1.start,
            globalReplace := false }, true, none⟩ := by
      unfold Dependency.maybeUpdate
      rw [if_pos h1, if_neg (by rw [← h1v]; simp), if_neg]
      rw [h0]
      simp
    rw [e1]
    unfold Dependency.maybeUpdate
    rw [if_pos h2]
    rw [if_neg (by simp [← h2v])]
    rw [if_pos (by simp; exact fun hc => hnew hc.symm)]
  · intro d rep1 rep2 hv h1 hnew h2
    have e1 : d.maybeUpdate rep1 =
        ⟨{ d with
            effectiveVersion := rep1.new,
            location := d.location.setReplace rep1.start,
            globalReplace := true }, true, none⟩ := by
      unfold Dependency.maybeUpdate
      rw [if_neg (by simp [h1]), if_neg (by simp [hv])]
    rw [e1]
    unfold Dependency.maybeUpdate
    rw [if_neg (by simp [h2]), if_pos (by simpa using hnew)]
    simp

/-- C4 counterexample: `require M v1.0`, untargeted `replace M => N v1.0`
(new path, same version string), then untargeted `replace M => P v2.0`.
Both untargeted directives apply to the same module yet the second one
yields no conflict error — it overwrites the first. -/
theorem double_untargeted_no_error_cex :
    (freshDepM.maybeUpdate repUntargetedN).err = none ∧
    (freshDepM.maybeUpdate repUntargetedN).updated = true ∧
    (freshDepM.maybeUpdate repUntargetedN).dep.globalReplace = true ∧
    ((freshDepM.maybeUpdate repUntargetedN).dep.maybeUpdate
        repUntargetedP2).err = none ∧
    ((freshDepM.maybeUpdate repUntargetedN).dep.maybeUpdate
        repUntargetedP2).dep.effectiveVersion = ⟨"P", "v2.0"⟩ := by
  decide

/-! ## C8 — overall failure iff mismatches -/

/-- C8: when loading succeeds, the run prints exactly the mismatch list
(first component) and returns success iff that list is empty — mismatch
findings never abort the comparison. -/
theorem run_reports_iff_mismatches (c : ModCheckCommand) :
    (runWith (.ok c)).1 = findDepErrors c ∧
    ((runWith (.ok c)).2 = .ok () ↔ findDepErrors c = []) := by
  refine ⟨rfl, ?_⟩
  unfold runWith
  cases h : findDepErrors c with
  | nil => simp [h]
  | cons a l => simp [h]

/-! ## C10 — `GetDep` absence behaviour -/

/-- C10: `GetDep` returns a true nil (`none`) exactly when the path is
absent from `allDependencies`, and returns the stored dependency when
present; it reads the set and never mutates it (it is a plain function of
`p`). -/
theorem GetDep_spec (p : ProjectDependencies) (packagePath : String) :
    (p.GetDep packagePath = none ↔
      assocFind p.allDependencies packagePath = none) ∧
    (∀ d, assocFind p.allDependencies packagePath = some d →
      p.GetDep packagePath = some d) := by
  rcases h : assocFind p.allDependencies packagePath with _ | d <;>
    simp [ProjectDependencies.GetDep, h]

/-! ## C1 — what the comparison compares and reports -/

/-- C1 counterexample: the spec's own end-to-end scenario (project requires
`M v1.0`, dependency `example.com/d` requires `M v2.0`, configuration
`example.com/d:M`).  The single report's `wantVersion`/`gotVersion` are the
full `module.Version.String()` renderings `"M@v2.0"`/`"M@v1.0"`, not the
plain version strings `"v2.0"`/`"v1.0"` the claim states. -/
theorem findDepErrors_renders_module_ref_cex :
    ((findDepErrors e2eCmd).map fun e => (e.wantVersion, e.gotVersion)) =
      [("M@v2.0", "M@v1.0")] ∧ ("M@v2.0" : String) ≠ "v2.0" := by
  decide

/-- C1 (amended): a mismatch report is emitted exactly for each candidate
dependency and project set storing the candidate's original module path
whose two effective versions differ in their `String()` renderings
(`path@version`), compared by exact string equality — no semantic-version
ordering — and the report's `wantVersion`/`gotVersion` hold exactly those
two renderings (with both location chains). -/
theorem findDepErrors_mem_iff (c : ModCheckCommand) (e : DepError) :
    e ∈ findDepErrors c ↔
      ∃ kv ∈ depsToCheck c, ∃ pds ∈ c.projectDeps, ∃ projectDep,
        pds.GetDep kv.2.originalVersion.path = some projectDep ∧
        kv.2.effectiveVersion.render ≠ projectDep.effectiveVersion.render ∧
        e = ⟨kv.2.effectiveVersion.render, projectDep.effectiveVersion.render,
             projectDep.location, kv.2.location⟩ := by
  unfold findDepErrors
  rw [List.mem_flatMap]
  constructor
  · rintro ⟨kv, hkv, hmem⟩
    rw [List.mem_flatMap] at hmem
    obtain ⟨pds, hpds, hmem2⟩ := hmem
    split at hmem2
    next hg => simp at hmem2
    next pd hg =>
      split at hmem2
      next hne =>
        simp only [List.mem_singleton] at hmem2
        exact ⟨kv, hkv, pds, hpds, pd, hg, hne, hmem2⟩
      next hne => simp at hmem2
  · rintro ⟨kv, hkv, pds, hpds, pd, hg, hne, rfl⟩
    refine ⟨kv, hkv, ?_⟩
    rw [List.mem_flatMap]
    refine ⟨pds, hpds, ?_⟩
    simp [hg, hne]

/-! ## C3 / C5 — the require loop and the `replacements` set -/

theorem assocFind_append_fresh (xs : List (String × Dependency)) (k : String)
    (nd : Dependency)
    (hx : ∀ path dep, assocFind xs path = some dep → FreshDep dep)
    (hnd : FreshDep nd) :
    ∀ path dep, assocFind (xs ++ [(k, nd)]) path = some dep → FreshDep dep := by
  intro path dep hfind
  rw [assocFind_append] at hfind
  split at hfind
  next w hw => exact hx path dep (by rw [hw]; exact hfind)
  next hw =>
    rw [assocFind] at hfind
    split at hfind
    next hpath =>
      injection hfind with hfind
      subst hfind
      exact hnd
    next => exact absurd hfind (by rw [assocFind]; simp)

theorem assocFind_append_none {α : Type} (xs : List (String × α)) (k : String)
    (v : α) (key : String) (h1 : assocFind xs key = none) (h2 : k ≠ key) :
    assocFind (xs ++ [(k, v)]) key = none := by
  rw [assocFind_append, h1, assocFind, if_neg h2, assocFind]

theorem buildRequires_fresh (modIdent : String) (parentLoc : Option LocationTree) :
    ∀ (reqs : List Require) (p q : ProjectDependencies),
      buildRequires modIdent parentLoc reqs p = .ok q →
      (∀ path dep, assocFind p.allDependencies path = some dep → FreshDep dep) →
      q.replacementPaths = p.replacementPaths ∧
        ∀ path dep, assocFind q.allDependencies path = some dep → FreshDep dep := by
  intro reqs
  induction reqs with
  | nil =>
    intro p q h hp
    rw [buildRequires] at h
    injection h with h
    subst h
    exact ⟨rfl, hp⟩
  | cons req rest ih =>
    intro p q h hp
    rw [buildRequires] at h
    split at h
    next => exact absurd h (by simp)
    next hnone =>
      have hres := ih _ q h
        (assocFind_append_fresh p.allDependencies req.mod.path _ hp ⟨rfl, rfl, rfl⟩)
      exact ⟨hres.1, hres.2⟩

theorem buildRequires_ok (modIdent : String) (parentLoc : Option LocationTree) :
    ∀ (reqs : List Require) (p : ProjectDependencies),
      (∀ r ∈ reqs, assocFind p.allDependencies r.mod.path = none) →
      (reqs.map fun r => r.mod.path).Nodup →
      ∃ q, buildRequires modIdent parentLoc reqs p = .ok q := by
  intro reqs
  induction reqs with
  | nil => exact fun p _ _ => ⟨p, rfl⟩
  | cons req rest ih =>
    intro p hnotin hnodup
    have h0 : assocFind p.allDependencies req.mod.path = none :=
      hnotin req (List.mem_cons_self _ _)
    rw [List.map_cons, List.nodup_cons] at hnodup
    obtain ⟨hhead, htail⟩ := hnodup
    rw [buildRequires, h0]
    apply ih
    · intro r hr
      exact assocFind_append_none _ _ _ _
        (hnotin r (List.mem_cons_of_mem _ hr))
        (fun hc => hhead (hc ▸ List.mem_map_of_mem (fun r => r.mod.path) hr))
    · exact htail

theorem updateEffectiveVersion_preserves (p : ProjectDependencies)
    (rep : Replace) (p' : ProjectDependencies)
    (h : p.updateEffectiveVersion rep = .ok p')
    (hp : DiffImpliesRecorded p) : DiffImpliesRecorded p' := by
  unfold ProjectDependencies.updateEffectiveVersion at h
  split at h
  next hnone =>
    injection h with h
    subst h
    exact hp
  next dep hfound =>
    split at h
    next => exact absurd h (by simp)
    next herr =>
      split at h
      next hupd =>
        injection h with h
        subst h
        intro path dep' hfind hdiff
        by_cases hpath : rep.old.path = path
        · subst hpath
          by_cases hm : rep.old.path ∈ p.replacementPaths
          · simp [hm]
          · simp only [hm, if_neg]
            exact List.mem_append_right _ (List.mem_singleton_self _)
        · rw [assocFind_assocUpdate_ne _ _ _ _ hpath] at hfind
          have hin := hp path dep' hfind hdiff
          by_cases hm : rep.old.path ∈ p.replacementPaths
          · simpa [hm] using hin
          · simp only [hm, if_neg]
            exact List.mem_append_left _ hin
      next hupd =>
        injection h with h
        subst h
        intro path dep' hfind hdiff
        have hdep : (dep.maybeUpdate rep).dep = dep :=
          maybeUpdate_not_updated _ _ (by simpa using hupd)
        by_cases hpath : rep.old.path = path
        · subst hpath
          rw [assocFind_assocUpdate_self] at hfind
          injection hfind with hfind
          refine hp _ _ hfound ?_
          rw [← hdep, hfind]
          exact hdiff
        · rw [assocFind_assocUpdate_ne _ _ _ _ hpath] at hfind
          exact hp path dep' hfind hdiff

theorem applyReplaces_preserves :
    ∀ (reps : List Replace) (p p' : ProjectDependencies),
      applyReplaces p reps = .ok p' →
      DiffImpliesRecorded p → DiffImpliesRecorded p' := by
  intro reps
  induction reps with
  | nil =>
    intro p p' h hp
    rw [applyReplaces] at h
    injection h with h
    subst h
    exact hp
  | cons rep rest ih =>
    intro p p' h hp
    rw [applyReplaces] at h
    split at h
    next => exact absurd h (by simp)
    next p₁ hstep => exact ih p₁ p' h (updateEffectiveVersion_preserves p rep p₁ hstep hp)

/-- C3 (amended): every dependency whose effective version ends up
differing from its original version is recorded in the manifest's
`replacements` set.  (The converse half of the frozen claim fails: a
directive whose new ref equals the original ref is recorded although
`effectiveVersion = originalVersion`, see the counterexample.) -/
theorem replacements_complete (parentModDecl : Option Dependency)
    (mf : ModFile) (p : ProjectDependencies)
    (h : NewProjectDependenciesFromModfile parentModDecl mf = .ok p) :
    ∀ path dep, assocFind p.allDependencies path = some dep →
      dep.effectiveVersion ≠ dep.originalVersion → path ∈ p.replacementPaths := by
  unfold NewProjectDependenciesFromModfile at h
  split at h
  next => exact absurd h (by simp)
  next p0 hb =>
    have hfresh := buildRequires_fresh _ _ mf.require ⟨[], [], []⟩ p0 hb
      (by intro path dep hf; rw [assocFind] at hf; exact absurd hf (by simp))
    have hinv0 : DiffImpliesRecorded p0 := by
      intro path dep hf hdiff
      exact absurd (hfresh.2 path dep hf).1 hdiff
    exact applyReplaces_preserves mf.replace p0 p h hinv0

theorem replacements_complete_witness : "M" ∈ versionReplaceSet.replacementPaths :=
  replacements_complete none versionReplaceMf versionReplaceSet rfl
    "M" versionReplaceDepM rfl (by decide)

/-- C3 counterexample: `require M v1.0` with the identity directive
`replace M v1.0 => M v1.0` builds successfully, records `M` in the
`replacements` set, yet the stored dependency's effective version equals
its original version — so not every member of the set differs. -/
theorem replacements_identity_cex :
    NewProjectDependenciesFromModfile none identityReplaceMf =
      .ok identityReplaceSet ∧
    identityReplaceSet.replacementPaths = ["M"] ∧
    (identityReplaceSet.Replacements.map fun d =>
      (d.originalVersion, d.effectiveVersion)) =
        [(⟨"M", "v1.0"⟩, ⟨"M", "v1.0"⟩)] := by
  refine ⟨rfl, rfl, rfl⟩

/-- C5 (amended): a manifest with no replace directives and no duplicate
require paths builds successfully, with every dependency untouched
(`effectiveVersion = originalVersion`, flag clear, no override position)
and an empty `replacements` set.  (As frozen — success for ANY manifest
without overrides — the claim fails on a duplicate require entry, see the
counterexample.) -/
theorem no_replace_identity (parentModDecl : Option Dependency) (mf : ModFile)
    (hrep : mf.replace = [])
    (hnodup : (mf.require.map fun r => r.mod.path).Nodup) :
    ∃ p, NewProjectDependenciesFromModfile parentModDecl mf = .ok p ∧
      p.replacementPaths = [] ∧
      ∀ path dep, assocFind p.allDependencies path = some dep →
        dep.effectiveVersion = dep.originalVersion ∧ dep.globalReplace = false ∧
          dep.location.replaceLocation = ⟨0, 0⟩ := by
  obtain ⟨q, hq⟩ := buildRequires_ok mf.module.render
    (parentModDecl.map fun d => d.location) mf.require ⟨[], [], []⟩
    (by intro r _; rw [assocFind]) hnodup
  have hfresh := buildRequires_fresh _ _ mf.require ⟨[], [], []⟩ q hq
    (by intro path dep hf; rw [assocFind] at hf; exact absurd hf (by simp))
  refine ⟨q, ?_, hfresh.1, fun path dep hf => hfresh.2 path dep hf⟩
  unfold NewProjectDependenciesFromModfile
  rw [hq, hrep]
  rfl

theorem no_replace_identity_witness :
    ∃ p, NewProjectDependenciesFromModfile none projMf = .ok p ∧
      p.replacementPaths = [] ∧
      ∀ path dep, assocFind p.allDependencies path = some dep →
        dep.effectiveVersion = dep.originalVersion ∧ dep.globalReplace = false ∧
          dep.location.replaceLocation = ⟨0, 0⟩ :=
  no_replace_identity none projMf rfl (by decide)

/-- C5 counterexample: a manifest with an empty replace list but a
duplicate require entry for `M` does not build at all — it is the
"duplicate dependency" model conflict error, so building does not succeed
for EVERY override-free manifest. -/
theorem no_replace_duplicate_require_cex :
    dupRequireMf.replace = [] ∧
    NewProjectDependenciesFromModfile none dupRequireMf =
      .error "duplicate dependency M" := by
  refine ⟨rfl, rfl⟩

/-! ## C6 — the manifest-loading cache -/

theorem getOrLoadAt_cached (readMod readMod2 : String → Except String ModFile)
    (c c1 : LoadState) (modFilePath : String) (dep dep2 : Option Dependency)
    (deps : ProjectDependencies)
    (h : getOrLoadPackageDepsAt readMod c modFilePath dep =
      .ok (c1, some deps, true)) :
    getOrLoadPackageDepsAt readMod2 c1 modFilePath dep2 =
      .ok (c1, some deps, false) := by
  unfold getOrLoadPackageDepsAt at h ⊢
  by_cases hp : modFilePath = ""
  · rw [if_pos hp] at h
    exact absurd h (by simp)
  · rw [if_neg hp] at h ⊢
    split at h
    next => exact absurd h (by simp)
    next hc =>
      split at h
      next => exact absurd h (by simp)
      next mf hr =>
        split at h
        next => exact absurd h (by simp)
        next ds hb =>
          simp only [Except.ok.injEq, Prod.mk.injEq, Option.some.injEq] at h
          obtain ⟨hc1, hds, -⟩ := h
          subst hc1
          subst hds
          rw [show (⟨assocUpdate c.allLoadedDeps modFilePath ds⟩ :
                LoadState).allLoadedDeps =
              assocUpdate c.allLoadedDeps modFilePath ds from rfl,
            assocFind_assocUpdate_self]

/-- C6: a second `getOrLoadPackageDeps` call for the same package (same
non-empty manifest path) returns the identical cached dependency set with
`wasFreshLoad = false`, leaves the cache unchanged, and builds nothing —
whatever parser collaborator or caller ancestry the second call carries. -/
theorem getOrLoad_cached (readMod readMod2 : String → Except String ModFile)
    (c c1 : LoadState) (pm : Option PkgModule) (dep dep2 : Option Dependency)
    (deps : ProjectDependencies)
    (h : getOrLoadPackageDeps readMod c pm dep = .ok (c1, some deps, true)) :
    getOrLoadPackageDeps readMod2 c1 pm dep2 = .ok (c1, some deps, false) := by
  cases pm with
  | none =>
    rw [getOrLoadPackageDeps] at h
    exact absurd h (by simp)
  | some m =>
    rw [getOrLoadPackageDeps] at h ⊢
    cases hr : m.replaceGoMod with
    | none =>
      rw [hr] at h
      exact getOrLoadAt_cached readMod readMod2 c c1 m.goMod dep dep2 deps h
    | some r =>
      rw [hr] at h
      exact getOrLoadAt_cached readMod readMod2 c c1 r dep dep2 deps h

theorem getOrLoad_cached_witness :
    getOrLoadPackageDeps readModConst cacheAfterRoot pmRoot none =
      .ok (cacheAfterRoot, some projSet, false) :=
  getOrLoad_cached readModConst readModConst ⟨[]⟩ cacheAfterRoot pmRoot
    none none projSet rfl

/-! ## C7 — `--match-dep` configuration validation -/

theorem parseAll_error_of_mem :
    ∀ (raw : List String) (s es : String), s ∈ raw →
      parseMatchDep s = .error es →
      ∃ e, parseAllMatchDeps raw = .error e := by
  intro raw
  induction raw with
  | nil => intro s es hs; exact absurd hs (by simp)
  | cons hd tl ih =>
    intro s es hs hes
    rw [List.mem_cons] at hs
    rcases hs with rfl | hs
    · exact ⟨es, by rw [parseAllMatchDeps, hes]⟩
    · cases hh : parseMatchDep hd with
      | error e => exact ⟨e, by rw [parseAllMatchDeps, hh]⟩
      | ok p =>
        obtain ⟨e, he⟩ := ih s es hs hes
        exact ⟨e, by rw [parseAllMatchDeps, hh, he]⟩

theorem parseAll_mem :
    ∀ (raw : List String) (ps : List (String × String)),
      parseAllMatchDeps raw = .ok ps →
      ∀ (s : String) (p : String × String), s ∈ raw →
        parseMatchDep s = .ok p → p ∈ ps := by
  intro raw
  induction raw with
  | nil => intro ps _ s p hs; exact absurd hs (by simp)
  | cons hd tl ih =>
    intro ps hps s p hs hp
    rw [parseAllMatchDeps] at hps
    split at hps
    next => exact absurd hps (by simp)
    next q hq =>
      split at hps
      next => exact absurd hps (by simp)
      next qs hqs =>
        injection hps with hps
        subst hps
        rw [List.mem_cons] at hs
        rcases hs with rfl | hs
        · rw [hq] at hp
          injection hp with hp
          subst hp
          exact List.mem_cons_self _ _
        · exact List.mem_cons_of_mem _ (ih qs hqs s p hs hp)

theorem addMatchDep_mem_self (m : List (String × List String)) (pkg dep : String) :
    ∃ l, assocFind (addMatchDep m pkg dep) pkg = some l ∧ dep ∈ l := by
  unfold addMatchDep
  cases hf : assocFind m pkg with
  | none =>
    refine ⟨[dep], ?_, List.mem_singleton_self _⟩
    rw [assocFind_append, hf, assocFind, if_pos rfl]
  | some deps =>
    show ∃ l, assocFind
      (if dep ∈ deps then m else assocUpdate m pkg (deps ++ [dep])) pkg =
        some l ∧ dep ∈ l
    by_cases hd : dep ∈ deps
    · rw [if_pos hd]
      exact ⟨deps, hf, hd⟩
    · rw [if_neg hd]
      exact ⟨deps ++ [dep], assocFind_assocUpdate_self _ _ _,
        List.mem_append_right _ (List.mem_singleton_self _)⟩

theorem addMatchDep_mono (m : List (String × List String)) (pkg dep p t : String)
    (l : List String) (h : assocFind m p = some l) (ht : t ∈ l) :
    ∃ l', assocFind (addMatchDep m pkg dep) p = some l' ∧ t ∈ l' := by
  unfold addMatchDep
  cases hf : assocFind m pkg with
  | none =>
    refine ⟨l, ?_, ht⟩
    rw [assocFind_append, h]
  | some deps =>
    show ∃ l', assocFind
      (if dep ∈ deps then m else assocUpdate m pkg (deps ++ [dep])) p =
        some l' ∧ t ∈ l'
    by_cases hd : dep ∈ deps
    · rw [if_pos hd]
      exact ⟨l, h, ht⟩
    · rw [if_neg hd]
      by_cases hp : pkg = p
      · subst hp
        rw [h] at hf
        injection hf with hf
        subst hf
        exact ⟨l ++ [dep], assocFind_assocUpdate_self _ _ _,
          List.mem_append_left _ ht⟩
      · rw [assocFind_assocUpdate_ne _ _ _ _ hp]
        exact ⟨l, h, ht⟩

theorem buildParsed_mem :
    ∀ (ps : List (String × String)) (m : List (String × List String))
      (p t : String),
      ((p, t) ∈ ps ∨ ∃ l, assocFind m p = some l ∧ t ∈ l) →
      ∃ l, assocFind (buildParsedMatchDeps ps m) p = some l ∧ t ∈ l := by
  intro ps
  induction ps with
  | nil =>
    intro m p t h
    rcases h with h | h
    · exact absurd h (by simp)
    · exact h
  | cons pair rest ih =>
    intro m p t h
    obtain ⟨pkg, dep⟩ := pair
    rw [buildParsedMatchDeps]
    apply ih
    rcases h with h | ⟨l, hl, ht⟩
    · rw [List.mem_cons] at h
      rcases h with h | h
      · right
        rw [show p = pkg from congrArg Prod.fst h,
          show t = dep from congrArg Prod.snd h]
        exact addMatchDep_mem_self m pkg dep
      · exact Or.inl h
    · exact Or.inr (addMatchDep_mono m pkg dep p t l hl ht)

theorem mem_matchDepPairs (m : List (String × List String)) (p t : String)
    (l : List String) (h : assocFind m p = some l) (ht : t ∈ l) :
    (p, t) ∈ matchDepPairs m := by
  unfold matchDepPairs
  rw [List.mem_flatMap]
  exact ⟨(p, l), mem_of_assocFind m p l h,
    List.mem_map_of_mem (fun d => (p, d)) ht⟩

theorem validate_none_nodup :
    ∀ (pairs tmp : List (String × String)),
      validateMatchDeps pairs tmp = none →
      (pairs.map Prod.snd).Nodup ∧
        ∀ x ∈ pairs.map Prod.snd, assocFind tmp x = none := by
  intro pairs
  induction pairs with
  | nil => intro tmp _; simp
  | cons pair rest ih =>
    intro tmp h
    obtain ⟨pkg, dep⟩ := pair
    rw [validateMatchDeps] at h
    split at h
    next => exact absurd h (by simp)
    next hf =>
      obtain ⟨hnd, hall⟩ := ih _ h
      constructor
      · rw [List.map_cons, List.nodup_cons]
        refine ⟨fun hmem => ?_, hnd⟩
        have := hall dep hmem
        rw [assocFind, if_pos rfl] at this
        exact absurd this (by simp)
      · intro x hx
        rw [List.map_cons, List.mem_cons] at hx
        rcases hx with rfl | hx
        · exact hf
        · have := hall x hx
          by_cases hdx : dep = x
          · rw [assocFind, if_pos hdx] at this
            exact absurd this (by simp)
          · rw [assocFind, if_neg hdx] at this
            exact this

/-- C7: configuration validation errors whenever two inputs place the same
target module under two different dependency packages, errors whenever
some input is malformed (not exactly one `:`, or an empty component — the
cases in which `parseMatchDep` errors), and accepts one package sourcing
several distinct targets (`foo:bar` with `foo:baz`). -/
theorem parseAndVerifyMatchDeps_spec :
    (∀ (raw : List String) (s1 s2 p1 p2 t : String),
      s1 ∈ raw → s2 ∈ raw →
      parseMatchDep s1 = .ok (p1, t) → parseMatchDep s2 = .ok (p2, t) →
      p1 ≠ p2 → ∃ e, parseAndVerifyMatchDeps raw = .error e) ∧
    (∀ (raw : List String) (s es : String), s ∈ raw →
      parseMatchDep s = .error es →
      ∃ e, parseAndVerifyMatchDeps raw = .error e) ∧
    (parseAndVerifyMatchDeps ["foo:bar", "foo:baz"] =
      .ok [("foo", ["bar", "baz"])]) := by
  refine ⟨?_, ?_, rfl⟩
  · intro raw s1 s2 p1 p2 t hs1 hs2 hok1 hok2 hne
    cases hp : parseAllMatchDeps raw with
    | error e => exact ⟨e, by simp only [parseAndVerifyMatchDeps, hp]⟩
    | ok ps =>
      have h1 : (p1, t) ∈ ps := parseAll_mem raw ps hp s1 _ hs1 hok1
      have h2 : (p2, t) ∈ ps := parseAll_mem raw ps hp s2 _ hs2 hok2
      obtain ⟨l1, hf1, ht1⟩ := buildParsed_mem ps [] p1 t (Or.inl h1)
      obtain ⟨l2, hf2, ht2⟩ := buildParsed_mem ps [] p2 t (Or.inl h2)
      have hm1 := mem_matchDepPairs _ _ _ _ hf1 ht1
      have hm2 := mem_matchDepPairs _ _ _ _ hf2 ht2
      cases hv : validateMatchDeps (matchDepPairs (buildParsedMatchDeps ps [])) []
        with
      | some e => exact ⟨e, by simp only [parseAndVerifyMatchDeps, hp, hv]⟩
      | none =>
        exfalso
        obtain ⟨hnd, -⟩ := validate_none_nodup _ [] hv
        have := List.inj_on_of_nodup_map hnd hm1 hm2 rfl
        exact hne (congrArg Prod.fst this)
  · intro raw s es hs hes
    obtain ⟨e, he⟩ := parseAll_error_of_mem raw s es hs hes
    exact ⟨e, by simp only [parseAndVerifyMatchDeps, he]⟩

/-! ## C9 — ancestry chain traversal -/

theorem cyclicStore_runs_forever (fuel : Nat) :
    ∀ res, ancestryToStringAux cyclicStore fuel (some 0) res = none := by
  induction fuel with
  | zero => intro res; rfl
  | succ n ih =>
    intro res
    rw [show ancestryToStringAux cyclicStore (n + 1) (some 0) res =
        ancestryToStringAux cyclicStore n (some 0)
          (res ++ ancestryLine ⟨"example.com/r@v0.1", ⟨1, 1⟩, ⟨0, 0⟩, some 0⟩)
      from rfl]
    exact ih _

/-- C9 counterexample: on a one-node cyclic ancestor linkage the
`ancestryToString` loop — which has no depth cap in the code — never
terminates: no amount of fuel makes the loop exit, so neither a full chain
nor an internal error is ever produced. -/
theorem ancestry_cycle_diverges_cex : ¬ AncestryTerminates cyclicStore (some 0) := by
  rintro ⟨fuel, res, h⟩
  rw [cyclicStore_runs_forever fuel ""] at h
  exact Option.noConfusion h

theorem wellFormedFrom_spec :
    ∀ (store : List AncestryNode) (k i : Nat) (n : AncestryNode) (j : Nat),
      wellFormedFrom k store = true → store[i]? = some n →
      n.ancestor = some j → j < k + i := by
  intro store
  induction store with
  | nil => intro k i n j _ h2; simp at h2
  | cons hd tl ih =>
    intro k i n j h1 h2 h3
    rw [wellFormedFrom, Bool.and_eq_true] at h1
    obtain ⟨ha, hrest⟩ := h1
    cases i with
    | zero =>
      rw [List.getElem?_cons_zero] at h2
      injection h2 with h2
      subst h2
      rw [h3] at ha
      simp at ha
      omega
    | succ i' =>
      rw [List.getElem?_cons_succ] at h2
      have := ih (k + 1) i' n j hrest h2 h3
      omega

theorem ancestry_terminates_of_wf (store : List AncestryNode)
    (h : WellFormedAncestry store) :
    ∀ i res, ∃ fuel out, ancestryToStringAux store fuel (some i) res = some out := by
  intro i
  induction i using Nat.strong_induction_on with
  | _ i ih =>
    intro res
    cases hg : store[i]? with
    | none =>
      refine ⟨1, res, ?_⟩
      rw [show ancestryToStringAux store 1 (some i) res =
          (match store[i]? with
           | none => some res
           | some n => ancestryToStringAux store 0 n.ancestor
               (res ++ ancestryLine n)) from rfl]
      simp only [hg]
    | some n =>
      cases ha : n.ancestor with
      | none =>
        refine ⟨2, res ++ ancestryLine n, ?_⟩
        rw [show ancestryToStringAux store 2 (some i) res =
            (match store[i]? with
             | none => some res
             | some n => ancestryToStringAux store 1 n.ancestor
                 (res ++ ancestryLine n)) from rfl]
        simp only [hg, ha]
        rfl
      | some j =>
        have hj : j < i := by
          have := wellFormedFrom_spec store 0 i n j h hg ha
          omega
        obtain ⟨fuel, out, hf⟩ := ih j hj (res ++ ancestryLine n)
        refine ⟨fuel + 1, out, ?_⟩
        rw [show ancestryToStringAux store (fuel + 1) (some i) res =
            (match store[i]? with
             | none => some res
             | some n => ancestryToStringAux store fuel n.ancestor
                 (res ++ ancestryLine n)) from rfl]
        simp only [hg, ha]
        exact hf

/-- C9 (amended): the `ancestryToString` traversal has no depth cap; it
terminates on every chain whose ancestor links point strictly backwards —
the only chains this program builds, since each node's ancestor is a
previously constructed node — while a cyclic linkage makes the loop run
unboundedly (see the counterexample) instead of reporting an internal
error. -/
theorem ancestry_terminates_wf (store : List AncestryNode)
    (h : WellFormedAncestry store) (loc : Option Nat) :
    AncestryTerminates store loc := by
  cases loc with
  | none => exact ⟨0, "", rfl⟩
  | some i =>
    obtain ⟨fuel, out, hf⟩ := ancestry_terminates_of_wf store h i ""
    exact ⟨fuel, out, hf⟩

theorem ancestry_terminates_wf_witness : AncestryTerminates chainStore (some 1) :=
  ancestry_terminates_wf chainStore rfl (some 1)

end GoModCheck
